import Mathlib

/-!
# Verification of the Suraksha voice-call audio core

Shallow embedding of the real-time audio streaming session manager found in
`src/components/VoiceCall.tsx` (the canonical revision; the unnamed variants
contain the same logic), together with proofs and refutations of the spec's
claims about it.

Modelling conventions:
* JavaScript numbers are modelled as exact rationals (`ℚ`).  Every concrete
  floating-point computation reasoned about below is exact in IEEE binary
  floating point (divisions by `2^15`, multiplications by `2^15`, and the
  small literals used as counterexamples), so the rational model is faithful
  at every input we evaluate.
* 16-bit signed integers are modelled as `Int` with the ECMAScript `ToInt16`
  wrap-around applied explicitly (`jsToInt16`).
* Strings are modelled as `List Char`, byte arrays as `List Nat` with every
  element `< 256`.
* Stateful callback code is modelled by explicit state records and step
  functions.
-/

namespace VoiceCall

/-! ## Sample conversion (Codec Utility)

`scriptProcessor.onaudioprocess` (VoiceCall.tsx line 116) converts captured
float samples with `int16[i] = inputData[i] * 32768`, i.e. the product is
stored into an `Int16Array`.  ECMAScript `ToInt16` truncates the number
toward zero and reduces it modulo `2^16` into `[-32768, 32767]`; there is no
clamping and no rounding in the source. -/

/-- ECMAScript `ToInt16`: truncated value reduced modulo `2^16`, reinterpreted
as a signed 16-bit value.  (`Int.emod` is non-negative, matching the
"modulo" operation of the ECMAScript specification.) -/
def jsToInt16 (n : Int) : Int :=
  let m := n % 65536
  if 32768 ≤ m then m - 65536 else m

/-- Truncation toward zero, as performed by ECMAScript `ToIntegerOrInfinity`
inside `ToInt16`. -/
def ratTrunc (x : ℚ) : Int :=
  if 0 ≤ x then ⌊x⌋ else ⌈x⌉

/-- The float→PCM conversion actually performed by the source
(VoiceCall.tsx line 116): `int16[i] = inputData[i] * 32768` stored into an
`Int16Array`.  No clamp, no rounding. -/
def float_to_pcm (x : ℚ) : Int :=
  jsToInt16 (ratTrunc (x * 32768))

/-- The conversion as the specification describes it (spec §4.1):
`round(clamp(x, -1.0, 1.0) * 32768)`. -/
def float_to_pcm_spec (x : ℚ) : Int :=
  round (min 1 (max (-1) x) * 32768)

/-- PCM→float conversion from the source (`decodeAudioData`, VoiceCall.tsx
line 40): `dataInt16[i] / 32768.0`.  A quotient `s / 2^15` with `|s| ≤ 2^15`
is exactly representable in 32-bit floating point, so the rational model is
exact. -/
def pcm_to_float (s : Int) : ℚ :=
  (s : ℚ) / 32768

/-! ## Transport codec (Codec Utility)

`encode` (VoiceCall.tsx lines 19–24) builds a Latin-1 string whose code units
are exactly the input bytes (`String.fromCharCode(bytes[i])`) and passes it to
the platform's `btoa`, the standard Base64 encoder; `decode` (lines 26–32)
applies `atob` and reads the code units back into a `Uint8Array`.  Since the
string stages are byte-for-byte transcriptions, the pair is modelled as Base64
encoding/decoding on byte lists.  `btoa`/`atob` are platform builtins; they
are modelled here by the standard Base64 algorithm (RFC 4648 alphabet with
`=` padding), which is their specified behaviour on the well-formed inputs
that arise below. -/

/-- The standard Base64 alphabet used by `btoa`/`atob`. -/
def base64Alphabet : List Char :=
  ['A', 'B', 'C', 'D', 'E', 'F', 'G', 'H', 'I', 'J', 'K', 'L', 'M',
   'N', 'O', 'P', 'Q', 'R', 'S', 'T', 'U', 'V', 'W', 'X', 'Y', 'Z',
   'a', 'b', 'c', 'd', 'e', 'f', 'g', 'h', 'i', 'j', 'k', 'l', 'm',
   'n', 'o', 'p', 'q', 'r', 's', 't', 'u', 'v', 'w', 'x', 'y', 'z',
   '0', '1', '2', '3', '4', '5', '6', '7', '8', '9', '+', '/']

/-- Sextet value → Base64 character. -/
def base64Char (n : Nat) : Char :=
  base64Alphabet.getD n 'A'

/-- Base64 character → sextet value (position in the alphabet). -/
def base64Val (c : Char) : Nat :=
  base64Alphabet.findIdx (fun x => x = c)

/-- `btoa`: Base64-encode a byte sequence, three bytes to four characters,
padding a final 1- or 2-byte group with `=`. -/
def btoa : List Nat → List Char
  | [] => []
  | [a] =>
      [base64Char (a / 4), base64Char (a % 4 * 16), '=', '=']
  | [a, b] =>
      [base64Char (a / 4), base64Char (a % 4 * 16 + b / 16),
       base64Char (b % 16 * 4), '=']
  | a :: b :: c :: rest =>
      base64Char (a / 4) :: base64Char (a % 4 * 16 + b / 16) ::
      base64Char (b % 16 * 4 + c / 64) :: base64Char (c % 64) :: btoa rest

/-- `atob`: Base64-decode, four characters to three bytes, honouring `=`
padding in the final group.  (On malformed input the real `atob` throws; this
model returns a best-effort prefix, which no theorem below relies on.) -/
def atob : List Char → List Nat
  | c1 :: c2 :: c3 :: c4 :: rest =>
      if c3 = '=' then
        [base64Val c1 * 4 + base64Val c2 / 16]
      else if c4 = '=' then
        [base64Val c1 * 4 + base64Val c2 / 16,
         base64Val c2 % 16 * 16 + base64Val c3 / 4]
      else
        (base64Val c1 * 4 + base64Val c2 / 16) ::
        (base64Val c2 % 16 * 16 + base64Val c3 / 4) ::
        (base64Val c3 % 4 * 64 + base64Val c4) :: atob rest
  | _ => []

/-- `encode` (VoiceCall.tsx lines 19–24): bytes → Latin-1 string → `btoa`. -/
def encode (bytes : List Nat) : List Char :=
  btoa bytes

/-- `decode` (VoiceCall.tsx lines 26–32): `atob` → code units → bytes. -/
def decode (s : List Char) : List Nat :=
  atob s

/-! ## Playback Scheduler

Scheduling state of the `onmessage` handler: `nextStartTimeRef` (VoiceCall.tsx
line 58, a mutable ref initialised to `0`) and `sourcesRef` (line 57, the set
of currently scheduled `AudioBufferSourceNode`s, modelled as a list of node
identifiers).  Times and durations are in seconds as rationals. -/

structure SchedState where
  nextStartTime : ℚ
  sources : List Nat
  deriving DecidableEq, Repr

/-- One audio chunk arriving in `onmessage` (VoiceCall.tsx lines 126–141):
`nextStartTimeRef.current = Math.max(nextStartTimeRef.current, outCtx.currentTime)`;
`source.start(nextStartTimeRef.current)`;
`nextStartTimeRef.current += audioBuffer.duration`;
`sourcesRef.current.add(source)`.
Returns the new state together with the start time passed to `source.start`.
`now` is the reading of `outCtx.currentTime`, `id` identifies the new source
node, `dur` is `audioBuffer.duration`. -/
def enqueue (st : SchedState) (now : ℚ) (id : Nat) (dur : ℚ) : SchedState × ℚ :=
  let start := max st.nextStartTime now
  (⟨start + dur, id :: st.sources⟩, start)

/-- The `interrupted` branch of `onmessage` (VoiceCall.tsx lines 143–148):
`sourcesRef.current.forEach(s => s.stop())`; `sourcesRef.current.clear()`;
`nextStartTimeRef.current = 0`.  Returns the new state together with the list
of source nodes on which `stop()` was invoked. -/
def flush (st : SchedState) : SchedState × List Nat :=
  (⟨0, []⟩, st.sources)

/-- A scheduler-affecting event while the session is active: an inbound audio
chunk, or a remote `interrupted` signal. -/
inductive SchedEvent
  | enqueueEv (now : ℚ) (id : Nat) (dur : ℚ)
  | interruptedEv
  deriving DecidableEq

/-- Effect of one event on the scheduler state. -/
def schedStep (st : SchedState) : SchedEvent → SchedState
  | .enqueueEv now id dur => (enqueue st now id dur).1
  | .interruptedEv => (flush st).1

/-- Effect of a sequence of events on the scheduler state. -/
def runSched (st : SchedState) : List SchedEvent → SchedState
  | [] => st
  | e :: rest => runSched (schedStep st e) rest

/-- Run a sequence of enqueues; each input pair is a clock reading
(`outCtx.currentTime` when the chunk arrives) and a chunk duration.  Returns
the (start, end) interval scheduled for each chunk, in order. -/
def runEnqueues (st : SchedState) : List (ℚ × ℚ) → List (ℚ × ℚ)
  | [] => []
  | (now, dur) :: rest =>
      let r := enqueue st now 0 dur
      (r.2, r.2 + dur) :: runEnqueues r.1 rest

/-- The schedule the spec predicts when chunks arrive on time: chunk `i`
starts at `t0 + (d1 + ⋯ + d(i-1))`. -/
def startsFrom (t0 : ℚ) : List ℚ → List ℚ
  | [] => []
  | d :: ds => t0 :: startsFrom (t0 + d) ds

/-- "All chunks arrive before playback lags": each chunk's clock reading is
at most the cumulative scheduled position of the chunks before it. -/
def onTime : ℚ → List (ℚ × ℚ) → Bool
  | _, [] => true
  | t, (now, d) :: rest => decide (now ≤ t) && onTime (t + d) rest

/-- An event is an enqueue with a non-negative duration (every
`AudioBuffer.duration` is non-negative). -/
def isNonnegEnqueue : SchedEvent → Bool
  | .enqueueEv _ _ dur => decide (0 ≤ dur)
  | .interruptedEv => false

/-- An event's duration, when it has one, is non-negative. -/
def durOk : SchedEvent → Bool
  | .enqueueEv _ _ dur => decide (0 ≤ dur)
  | .interruptedEv => true

/-! ## Session state and the `interrupted` handler

`permissionState` (VoiceCall.tsx line 46) is the session's
permission/connection state field; the spec's `Active` state corresponds to
`granted`.  The remote-`interrupted` branch of `onmessage` flushes the
scheduler and clears `isModelSpeaking`; it never writes `permissionState`. -/

inductive PermState
  | pending
  | requesting
  | granted
  | denied
  | error
  | connecting
  deriving DecidableEq, Repr

/-- The pieces of component state visible to the `onmessage` handler. -/
structure SessionSnap where
  permission : PermState
  sched : SchedState
  isModelSpeaking : Bool
  deriving DecidableEq, Repr

/-- Processing a remote `interrupted` event (VoiceCall.tsx lines 143–148):
stop and clear all scheduled sources, reset the scheduling cursor, clear
`isModelSpeaking`.  No write to `permissionState` occurs in this branch. -/
def handleInterrupted (s : SessionSnap) : SessionSnap :=
  { s with sched := (flush s.sched).1, isModelSpeaking := false }

/-! ## Capture Pipeline and the mute flag

`scriptProcessor.onaudioprocess` (VoiceCall.tsx lines 112–120) begins with
`if (isMuted) return;`.  Here `isMuted` is the `const` bound by
`useState(false)` in the render in which `handleStartCall` was invoked: the
handler closure is installed once, inside the `onopen` callback, and a
JavaScript closure captures that binding itself.  The mute button
(line 296, `onClick=() => setIsMuted(!isMuted)`) schedules a re-render whose
new scope holds a fresh `isMuted` binding; it cannot mutate the binding the
installed handler closed over.  The model therefore carries two booleans:
`uiMuted`, the current React state the UI renders from, and `handlerMuted`,
the value frozen into the `onaudioprocess` closure when the session opened. -/

structure CaptureState where
  uiMuted : Bool
  handlerMuted : Bool
  sent : List (List Int)
  deriving DecidableEq, Repr

/-- Session open (`onopen`, VoiceCall.tsx lines 105–123): the
`onaudioprocess` closure is installed, capturing the current value of the
`isMuted` binding.  The mute button is only rendered once the session is
`granted`, so at this point the captured value is the initial `false`; the
parameter keeps the model general. -/
def openCapture (muted : Bool) : CaptureState :=
  ⟨muted, muted, []⟩

/-- The mute toggle button (VoiceCall.tsx line 296):
`setIsMuted(!isMuted)` updates the React state for subsequent renders. -/
def toggleMute (s : CaptureState) : CaptureState :=
  { s with uiMuted := !s.uiMuted }

/-- Frame conversion performed in the capture callback (VoiceCall.tsx lines
114–116): each float sample is converted by `int16[i] = inputData[i] * 32768`
(then serialized and Base64-encoded for transport; delivery is what matters
here, so `sent` records the converted frames). -/
def processFrame (frame : List ℚ) : List Int :=
  frame.map float_to_pcm

/-- One firing of `scriptProcessor.onaudioprocess` (VoiceCall.tsx lines
112–120): the closure tests the `isMuted` value it captured; if it is false,
the frame is converted, encoded and handed to
`session.sendRealtimeInput`. -/
def onaudioprocess (s : CaptureState) (frame : List ℚ) : CaptureState :=
  if s.handlerMuted then s
  else { s with sent := s.sent ++ [processFrame frame] }

/-! ## Visualizer Feed

`waveformData` is initialised to `new Array(40).fill(2)` (VoiceCall.tsx line
53); on each inbound chunk it is regenerated as
`Array.from(\x7b length: 40 \x7d, () => Math.random() * 80 + 20)` (line 141);
every 100 ms while the model is not speaking it decays as
`prev.map(v => Math.max(4, v * 0.9))` (line 197).  `Math.random()` draws are
modelled as a list of rationals in `[0, 1)`. -/

/-- Initial waveform state (VoiceCall.tsx line 53). -/
def initWaveform : List ℚ :=
  List.replicate 40 2

/-- A waveform update: an idle decay tick, or a regeneration on an inbound
chunk with the 40 values drawn by `Math.random()`. -/
inductive WaveEvent
  | decay
  | regen (rs : List ℚ)

/-- Effect of one update on the waveform (VoiceCall.tsx lines 141 and 197). -/
def waveStep (w : List ℚ) : WaveEvent → List ℚ
  | .decay => w.map fun v => max 4 (v * (9 / 10))
  | .regen rs => rs.map fun r => r * 80 + 20

/-- Effect of a sequence of updates. -/
def runWave (w : List ℚ) : List WaveEvent → List ℚ
  | [] => w
  | e :: rest => runWave (waveStep w e) rest

/-- Validity of an update: a regeneration consists of exactly 40 draws of
`Math.random()`, each in `[0, 1)`. -/
def validWaveEvent : WaveEvent → Bool
  | .decay => true
  | .regen rs => rs.length == 40 && rs.all fun r => decide (0 ≤ r) && decide (r < 1)

/-! ## Call duration formatting

`formatDuration` (VoiceCall.tsx lines 61–65): minutes = `Math.floor(s / 60)`,
seconds = `s % 60`, each rendered in decimal and left-padded with `'0'` to at
least two characters via `String.padStart(2, '0')`, joined by `':'`.  The
duration counter is a natural number of seconds (incremented from 0 by the
1 Hz timer), so `Number.prototype.toString` agrees with `Nat.repr`. -/

/-- JavaScript `String.prototype.padStart(n, c)` for a single pad
character. -/
def padStart (s : String) (n : Nat) (c : Char) : String :=
  if n ≤ s.length then s
  else String.mk (List.replicate (n - s.length) c) ++ s

/-- The source's formatter (VoiceCall.tsx lines 61–65). -/
def formatDuration (seconds : Nat) : String :=
  padStart (Nat.repr (seconds / 60)) 2 '0' ++ ":" ++
  padStart (Nat.repr (seconds % 60)) 2 '0'

/-- Modelled from the claim's words, for comparison with `formatDuration`:
the minutes field is `⌊s / 60⌋` in decimal, with one leading zero exactly
when it is a single digit (i.e. left-padded to at least two characters),
then `':'`, then `s mod 60` treated the same way. -/
def formatDuration_spec (seconds : Nat) : String :=
  let mins := seconds / 60
  let secs := seconds % 60
  (if mins < 10 then "0" ++ Nat.repr mins else Nat.repr mins) ++ ":" ++
  (if secs < 10 then "0" ++ Nat.repr secs else Nat.repr secs)

end VoiceCall

namespace VoiceCall

/-! ## Theorems: sample conversion -/

/-- `jsToInt16` is the identity on the 16-bit signed range. -/
theorem jsToInt16_eq_self (n : Int) (h1 : -32768 ≤ n) (h2 : n ≤ 32767) :
    jsToInt16 n = n := by
  simp only [jsToInt16]
  split <;> omega

/-- `ratTrunc` restricted to integers is the identity. -/
theorem ratTrunc_intCast (n : Int) : ratTrunc (n : ℚ) = n := by
  simp only [ratTrunc]
  split
  · exact Int.floor_intCast n
  · exact Int.ceil_intCast n

/-- C2: the float→PCM conversion in the source is NOT the clamped-and-rounded
conversion the claim describes: on the out-of-range input `x = 1.5` (exactly
representable in floating point, so the rational evaluation is faithful) the
code stores `ToInt16(trunc(1.5 * 32768)) = ToInt16(49152) = -16384` — a
positive input wraps around to a negative sample — while the claim's formula
gives `round(clamp(1.5, -1, 1) * 32768) = 32768`. -/
theorem float_to_pcm_wraps_around :
    float_to_pcm (3 / 2) = -16384 ∧
    (0 : ℚ) < 3 / 2 ∧ float_to_pcm (3 / 2) < 0 ∧
    float_to_pcm_spec (3 / 2) = 32768 ∧
    float_to_pcm (3 / 2) ≠ float_to_pcm_spec (3 / 2) := by
  refine ⟨?_, by norm_num, ?_, ?_, ?_⟩ <;>
    simp only [float_to_pcm, float_to_pcm_spec, ratTrunc, jsToInt16] <;>
    norm_num

/-- C7: the PCM→float→PCM round trip on the source's conversions is the exact
identity on the whole signed 16-bit range `[-32768, 32767]` (in particular it
is within the claim's ±1 tolerance everywhere). -/
theorem pcm_float_round_trip (s : Int) (h1 : -32768 ≤ s) (h2 : s ≤ 32767) :
    float_to_pcm (pcm_to_float s) = s := by
  have hmul : pcm_to_float s * 32768 = (s : ℚ) := by
    simp only [pcm_to_float]
    field_simp
  simp only [float_to_pcm, hmul, ratTrunc_intCast]
  exact jsToInt16_eq_self s h1 h2

/-! ## Theorems: transport codec -/

/-- Decoding a Base64 character recovers the sextet it encodes. -/
theorem base64Val_char : ∀ n < 64, base64Val (base64Char n) = n := by decide

/-- Base64 characters of genuine sextets are never the padding character. -/
theorem base64Char_ne_pad : ∀ n < 64, base64Char n ≠ '=' := by decide

/-- Base64 round trip: decoding an encoded byte list recovers it exactly. -/
theorem atob_btoa : ∀ l : List Nat, (∀ x ∈ l, x < 256) → atob (btoa l) = l
  | [], _ => rfl
  | [a], h => by
      have ha : a < 256 := h a (by simp)
      simp only [btoa, atob]
      rw [if_pos trivial,
        base64Val_char (a / 4) (by omega),
        base64Val_char (a % 4 * 16) (by omega)]
      simp only [List.cons.injEq, and_true]
      omega
  | [a, b], h => by
      have ha : a < 256 := h a (by simp)
      have hb : b < 256 := h b (by simp)
      simp only [btoa, atob]
      rw [if_neg (base64Char_ne_pad (b % 16 * 4) (by omega)), if_pos trivial,
        base64Val_char (a / 4) (by omega),
        base64Val_char (a % 4 * 16 + b / 16) (by omega),
        base64Val_char (b % 16 * 4) (by omega)]
      simp only [List.cons.injEq, and_true]
      exact ⟨by omega, by omega⟩
  | a :: b :: c :: rest, h => by
      have ha : a < 256 := h a (by simp)
      have hb : b < 256 := h b (by simp)
      have hc : c < 256 := h c (by simp)
      simp only [btoa, atob]
      rw [if_neg (base64Char_ne_pad (b % 16 * 4 + c / 64) (by omega)),
        if_neg (base64Char_ne_pad (c % 64) (by omega)),
        base64Val_char (a / 4) (by omega),
        base64Val_char (a % 4 * 16 + b / 16) (by omega),
        base64Val_char (b % 16 * 4 + c / 64) (by omega),
        base64Val_char (c % 64) (by omega)]
      simp only [List.cons.injEq]
      refine ⟨by omega, by omega, by omega, ?_⟩
      exact atob_btoa rest (fun x hx => h x (by simp [hx]))

/-- C6: the transport codec round-trips — for every byte sequence `x`,
`decode (encode x) = x` — and encoding the empty input yields empty
output. -/
theorem codec_round_trip :
    (∀ x : List Nat, (∀ b ∈ x, b < 256) → decode (encode x) = x) ∧
    encode [] = [] :=
  ⟨fun x hx => atob_btoa x hx, rfl⟩

/-- Witness for C6 on a concrete five-byte payload. -/
theorem codec_round_trip_witness :
    (∀ b ∈ [65, 200, 3, 255, 0], b < 256) ∧
    decode (encode [65, 200, 3, 255, 0]) = [65, 200, 3, 255, 0] :=
  ⟨by decide, codec_round_trip.1 [65, 200, 3, 255, 0] (by decide)⟩

/-! ## Theorems: playback scheduler -/

/-- The first chunk scheduled by a run of enqueues never starts before the
scheduling cursor the run began with. -/
theorem runEnqueues_head_start_ge (st : SchedState) (chunks : List (ℚ × ℚ)) :
    ∀ p ∈ (runEnqueues st chunks).head?, st.nextStartTime ≤ p.1 := by
  intro p hp
  cases chunks with
  | nil => simp [runEnqueues] at hp
  | cons c rest =>
      obtain ⟨now, dur⟩ := c
      simp only [runEnqueues, enqueue, List.head?_cons, Option.mem_def,
        Option.some.injEq] at hp
      rw [← hp]
      exact le_max_left _ _

/-- Gapless-or-later: in any run of enqueues, each chunk starts no earlier
than the previous chunk ends, whatever the clock readings are. -/
theorem runEnqueues_chain (st : SchedState) (chunks : List (ℚ × ℚ)) :
    List.Chain' (fun p q : ℚ × ℚ => p.2 ≤ q.1) (runEnqueues st chunks) := by
  induction chunks generalizing st with
  | nil => simp [runEnqueues]
  | cons c rest ih =>
      obtain ⟨now, dur⟩ := c
      simp only [runEnqueues]
      refine List.chain'_cons'.mpr ⟨?_, ih _⟩
      intro q hq
      have h := runEnqueues_head_start_ge (enqueue st now 0 dur).1 rest q hq
      simpa [enqueue] using h

/-- C3: each enqueue starts the chunk at `max(next_start_time, now)` and
advances the cursor by the duration; hence, starting from a cursor equal to
the output clock `t0` with every chunk arriving no later than the cumulative
scheduled position (`onTime`), chunk `i` starts exactly at
`t0 + (d1 + ⋯ + d(i-1))`, and in every run (lagging or not) each chunk starts
at or after the previous chunk's end. -/
theorem scheduler_ordering (st : SchedState) (t0 : ℚ) (chunks : List (ℚ × ℚ))
    (h0 : st.nextStartTime = t0) (ht : onTime t0 chunks = true) :
    (runEnqueues st chunks).map Prod.fst = startsFrom t0 (chunks.map Prod.snd) ∧
    List.Chain' (fun p q : ℚ × ℚ => p.2 ≤ q.1) (runEnqueues st chunks) := by
  refine ⟨?_, runEnqueues_chain st chunks⟩
  induction chunks generalizing st t0 with
  | nil => simp [runEnqueues, startsFrom]
  | cons c rest ih =>
      obtain ⟨now, dur⟩ := c
      simp only [onTime, Bool.and_eq_true, decide_eq_true_eq] at ht
      obtain ⟨hle, hrest⟩ := ht
      have hstart : max st.nextStartTime now = t0 := by
        rw [h0]; exact max_eq_left (h0 ▸ hle)
      simp only [runEnqueues, enqueue, List.map_cons, startsFrom,
        List.cons.injEq]
      refine ⟨hstart, ?_⟩
      exact ih ⟨max st.nextStartTime now + dur, 0 :: st.sources⟩ (t0 + dur)
        (by simp [hstart]) hrest

/-- Witness for C3: three half-second chunks arriving at clock 0 are
scheduled back to back at 0, 0.5 and 1 — a total span of exactly 1.5 s. -/
theorem scheduler_ordering_witness :
    onTime 0 [((0 : ℚ), (1 : ℚ) / 2), (0, 1 / 2), (0, 1 / 2)] = true ∧
    (runEnqueues ⟨0, []⟩ [((0 : ℚ), (1 : ℚ) / 2), (0, 1 / 2), (0, 1 / 2)]).map
      Prod.fst = [0, 1 / 2, 1] :=
  ⟨by norm_num [onTime], by
    rw [(scheduler_ordering ⟨0, []⟩ 0
      [((0 : ℚ), (1 : ℚ) / 2), (0, 1 / 2), (0, 1 / 2)] rfl
      (by norm_num [onTime])).1]
    norm_num [startsFrom]⟩

/-- C4: after a flush every previously scheduled chunk has been stopped, the
active set is empty and the cursor is reset; a chunk enqueued next, at any
non-negative device-clock reading, starts at or after that reading. -/
theorem flush_invariant (st : SchedState) (now : ℚ) (id : Nat) (dur : ℚ)
    (hnow : 0 ≤ now) :
    (flush st).2 = st.sources ∧
    ((flush st).1).sources = [] ∧
    ((flush st).1).nextStartTime = 0 ∧
    now ≤ (enqueue (flush st).1 now id dur).2 := by
  refine ⟨rfl, rfl, rfl, ?_⟩
  exact le_max_right 0 now

/-- Witness for C4 on a scheduler holding two chunks with cursor 7 and the
device clock at 5. -/
theorem flush_invariant_witness :
    (0 : ℚ) ≤ 5 ∧
    (flush ⟨7, [1, 2]⟩).2 = [1, 2] ∧
    ((flush ⟨7, [1, 2]⟩).1).sources = [] ∧
    ((flush ⟨7, [1, 2]⟩).1).nextStartTime = 0 ∧
    (5 : ℚ) ≤ (enqueue (flush ⟨7, [1, 2]⟩).1 5 3 2).2 := by
  have h := flush_invariant ⟨7, [1, 2]⟩ 5 3 2 (by norm_num)
  exact ⟨by norm_num, h.1, h.2.1, h.2.2.1, h.2.2.2⟩

/-- C5: the remote-`interrupted` handler, run while the session is Active
(`permissionState = granted`), leaves the permission/connection state field
unchanged and always empties the scheduler's active set. -/
theorem interrupted_preserves_session_state (s : SessionSnap)
    (h : s.permission = PermState.granted) :
    (handleInterrupted s).permission = s.permission ∧
    (handleInterrupted s).sched.sources = [] :=
  ⟨rfl, rfl⟩

/-- Witness for C5 on an Active session with one scheduled chunk. -/
theorem interrupted_preserves_session_state_witness :
    (⟨PermState.granted, ⟨3, [5]⟩, true⟩ : SessionSnap).permission =
      PermState.granted ∧
    (handleInterrupted ⟨PermState.granted, ⟨3, [5]⟩, true⟩).permission =
      PermState.granted ∧
    (handleInterrupted ⟨PermState.granted, ⟨3, [5]⟩, true⟩).sched.sources = [] :=
  ⟨rfl,
   (interrupted_preserves_session_state ⟨PermState.granted, ⟨3, [5]⟩, true⟩
      rfl).1.trans rfl,
   (interrupted_preserves_session_state ⟨PermState.granted, ⟨3, [5]⟩, true⟩
      rfl).2⟩

/-- C8: across any sequence of enqueue events with non-negative durations the
scheduling cursor never decreases, and among the scheduler-affecting events
only the `interrupted` flush can ever lower (reset) it. -/
theorem nextStartTime_monotone (st : SchedState) (evs : List SchedEvent)
    (h : ∀ e ∈ evs, isNonnegEnqueue e = true) :
    st.nextStartTime ≤ (runSched st evs).nextStartTime ∧
    ∀ (s : SchedState) (e : SchedEvent), durOk e = true →
      (schedStep s e).nextStartTime < s.nextStartTime →
      e = SchedEvent.interruptedEv := by
  constructor
  · induction evs generalizing st with
    | nil => exact le_refl _
    | cons e rest ih =>
        have he := h e (List.mem_cons_self e rest)
        have hrest : ∀ e' ∈ rest, isNonnegEnqueue e' = true :=
          fun e' h' => h e' (List.mem_cons_of_mem _ h')
        refine le_trans ?_ (ih (schedStep st e) hrest)
        cases e with
        | enqueueEv now id dur =>
            simp only [isNonnegEnqueue, decide_eq_true_eq] at he
            simp only [schedStep, enqueue]
            calc st.nextStartTime ≤ max st.nextStartTime now := le_max_left _ _
              _ ≤ max st.nextStartTime now + dur := le_add_of_nonneg_right he
        | interruptedEv => simp [isNonnegEnqueue] at he
  · intro s e hok hlt
    cases e with
    | enqueueEv now id dur =>
        exfalso
        simp only [durOk, decide_eq_true_eq] at hok
        simp only [schedStep, enqueue] at hlt
        have hge : s.nextStartTime ≤ max s.nextStartTime now + dur :=
          le_trans (le_max_left _ _) (le_add_of_nonneg_right hok)
        exact absurd hlt (not_lt.mpr hge)
    | interruptedEv => rfl

/-- Witness for C8 on a cursor at 3 and two enqueues, one arriving late and
one early. -/
theorem nextStartTime_monotone_witness :
    (∀ e ∈ [SchedEvent.enqueueEv 5 0 1, SchedEvent.enqueueEv 2 1 (1 / 2)],
      isNonnegEnqueue e = true) ∧
    (⟨3, []⟩ : SchedState).nextStartTime ≤
      (runSched ⟨3, []⟩
        [SchedEvent.enqueueEv 5 0 1, SchedEvent.enqueueEv 2 1 (1 / 2)]).nextStartTime :=
  ⟨by norm_num [isNonnegEnqueue],
   (nextStartTime_monotone ⟨3, []⟩
      [SchedEvent.enqueueEv 5 0 1, SchedEvent.enqueueEv 2 1 (1 / 2)]
      (by norm_num [isNonnegEnqueue])).1⟩

/-! ## Theorems: capture pipeline / mute -/

/-- C1 fails on the code: the session opens unmuted, the user toggles the
mute flag, and the very next capture callback still converts and delivers the
frame — the `onaudioprocess` closure tests the stale `isMuted` binding it
captured at session open, not the updated state.  Concretely, after
`toggleMute` the UI state is muted, yet processing the one-sample frame
`[0.0]` appends a converted frame to the transport. -/
theorem mute_toggle_has_no_effect :
    (onaudioprocess (toggleMute (openCapture false)) [0]).uiMuted = true ∧
    (onaudioprocess (toggleMute (openCapture false)) [0]).sent = [[0]] := by
  constructor
  · rfl
  · show [] ++ [processFrame [0]] = [[0]]
    simp only [processFrame, List.map_cons, List.map_nil, List.nil_append,
      float_to_pcm, ratTrunc, jsToInt16]
    norm_num

/-! ## Theorems: visualizer feed -/

/-- One valid waveform update preserves length 40 and keeps every value in
`(0, 100]`. -/
theorem waveStep_inv (w : List ℚ) (e : WaveEvent)
    (hlen : w.length = 40) (hv : ∀ v ∈ w, 0 < v ∧ v ≤ 100)
    (he : validWaveEvent e = true) :
    (waveStep w e).length = 40 ∧ ∀ v ∈ waveStep w e, 0 < v ∧ v ≤ 100 := by
  cases e with
  | decay =>
      refine ⟨by simpa [waveStep] using hlen, ?_⟩
      intro v hv'
      simp only [waveStep, List.mem_map] at hv'
      obtain ⟨u, hu, rfl⟩ := hv'
      obtain ⟨hu0, hu100⟩ := hv u hu
      constructor
      · exact lt_of_lt_of_le (by norm_num) (le_max_left 4 _)
      · refine max_le (by norm_num) ?_
        linarith
  | regen rs =>
      simp only [validWaveEvent, Bool.and_eq_true, beq_iff_eq,
        List.all_eq_true, decide_eq_true_eq] at he
      obtain ⟨hlen', hall⟩ := he
      refine ⟨by simpa [waveStep] using hlen', ?_⟩
      intro v hv'
      simp only [waveStep, List.mem_map] at hv'
      obtain ⟨r, hr, rfl⟩ := hv'
      obtain ⟨hr0, hr1⟩ := hall r hr
      constructor <;> linarith

/-- The invariant holds along every trace of valid updates. -/
theorem runWave_inv (w : List ℚ) (evs : List WaveEvent)
    (hlen : w.length = 40) (hv : ∀ v ∈ w, 0 < v ∧ v ≤ 100)
    (hevs : ∀ e ∈ evs, validWaveEvent e = true) :
    (runWave w evs).length = 40 ∧ ∀ v ∈ runWave w evs, 0 < v ∧ v ≤ 100 := by
  induction evs generalizing w with
  | nil => exact ⟨hlen, hv⟩
  | cons e rest ih =>
      obtain ⟨h1, h2⟩ := waveStep_inv w e hlen hv (hevs e (List.mem_cons_self _ _))
      exact ih (waveStep w e) h1 h2 (fun e' h' => hevs e' (List.mem_cons_of_mem _ h'))

/-- C9: starting from the initial waveform, after any sequence of updates
(idle decay ticks and chunk regenerations with `Math.random()` draws in
`[0, 1)`) the waveform still has length 40, every value lies in `[0, 100]`,
no value is exactly zero, and the idle tick replaces each value `v` by
`max 4 (v * 0.9)` — floor 4, decay factor 0.9. -/
theorem waveform_invariant (evs : List WaveEvent)
    (hevs : ∀ e ∈ evs, validWaveEvent e = true) :
    (runWave initWaveform evs).length = 40 ∧
    (∀ v ∈ runWave initWaveform evs, 0 ≤ v ∧ v ≤ 100) ∧
    (∀ v ∈ runWave initWaveform evs, v ≠ 0) ∧
    ∀ w : List ℚ, waveStep w WaveEvent.decay =
      w.map fun v => max 4 (v * (9 / 10)) := by
  have hinit : ∀ v ∈ initWaveform, 0 < v ∧ v ≤ 100 := by
    intro v hv
    rw [List.eq_of_mem_replicate hv]
    norm_num
  obtain ⟨h1, h2⟩ := runWave_inv initWaveform evs (by simp [initWaveform]) hinit hevs
  exact ⟨h1,
    fun v hv => ⟨le_of_lt (h2 v hv).1, (h2 v hv).2⟩,
    fun v hv => ne_of_gt (h2 v hv).1,
    fun w => rfl⟩

/-- Witness for C9 on a two-update trace: a regeneration from 40 mid-range
random draws followed by one idle decay tick. -/
theorem waveform_invariant_witness :
    (∀ e ∈ [WaveEvent.regen (List.replicate 40 (1 / 2)), WaveEvent.decay],
      validWaveEvent e = true) ∧
    (runWave initWaveform
      [WaveEvent.regen (List.replicate 40 (1 / 2)), WaveEvent.decay]).length = 40 :=
  ⟨by norm_num [validWaveEvent, List.all_eq_true],
   (waveform_invariant _ (by norm_num [validWaveEvent, List.all_eq_true])).1⟩

/-! ## Theorems: duration formatting -/

/-- With positive fuel, `Nat.toDigitsCore` produces at least one character on
top of the accumulator. -/
theorem toDigitsCore_length_ge (b : Nat) :
    ∀ (f n : Nat) (ds : List Char), 0 < f →
      ds.length + 1 ≤ (Nat.toDigitsCore b f n ds).length
  | 0, _, _, hf => absurd hf (by omega)
  | f + 1, n, ds, _ => by
      simp only [Nat.toDigitsCore]
      split
      · simp
      · cases f with
        | zero => simp [Nat.toDigitsCore]
        | succ f' =>
            have h := toDigitsCore_length_ge b (f' + 1) (n / b)
              (Nat.digitChar (n % b) :: ds) (Nat.succ_pos _)
            simp only [List.length_cons] at h
            omega

/-- Numbers below 10 print as a single character. -/
theorem repr_length_one (n : Nat) (h : n < 10) : (Nat.repr n).length = 1 := by
  have hall : ∀ m < 10, (Nat.repr m).length = 1 := by decide
  exact hall n h

/-- Numbers of 10 and above print with at least two characters. -/
theorem repr_length_ge_two (n : Nat) (h : 10 ≤ n) : 2 ≤ (Nat.repr n).length := by
  have h10 : ¬ n / 10 = 0 := by omega
  simp only [Nat.repr, Nat.toDigits, String.length, List.asString]
  rw [show Nat.toDigitsCore 10 (n + 1) n [] =
      Nat.toDigitsCore 10 n (n / 10) [Nat.digitChar (n % 10)] from by
    conv_lhs => simp only [Nat.toDigitsCore]
    rw [if_neg h10]]
  have hlen := toDigitsCore_length_ge 10 n (n / 10)
    [Nat.digitChar (n % 10)] (by omega)
  simpa using hlen

/-- C10: for every natural number of seconds, the formatter produces the
minutes `⌊s / 60⌋` left-padded with `'0'` to at least two characters, then
`':'`, then `s mod 60` padded the same way; a minutes value of 10 or more
(including 60 and up) is rendered in full, never truncated or rolled
over. -/
theorem formatDuration_correct (s : Nat) :
    formatDuration s = formatDuration_spec s := by
  have key : ∀ n : Nat, padStart (Nat.repr n) 2 '0' =
      if n < 10 then "0" ++ Nat.repr n else Nat.repr n := by
    intro n
    by_cases hn : n < 10
    · rw [if_pos hn]
      rw [show padStart (Nat.repr n) 2 '0' =
          if 2 ≤ (Nat.repr n).length then Nat.repr n
          else String.mk (List.replicate (2 - (Nat.repr n).length) '0') ++
            Nat.repr n from rfl]
      rw [repr_length_one n hn, if_neg (by omega)]
      have hz : String.mk (List.replicate (2 - 1) '0') = "0" := rfl
      rw [hz]
    · rw [if_neg hn]
      have h2 : 2 ≤ (Nat.repr n).length := repr_length_ge_two n (by omega)
      simp [padStart, h2]
  simp only [formatDuration, formatDuration_spec]
  rw [key, key]

/-- Witness for C7 at the boundary samples `-32768` and `32767`. -/
theorem pcm_float_round_trip_witness :
    ((-32768 : Int) ≤ -32768 ∧ (-32768 : Int) ≤ 32767 ∧
      float_to_pcm (pcm_to_float (-32768)) = -32768) ∧
    ((-32768 : Int) ≤ 32767 ∧ (32767 : Int) ≤ 32767 ∧
      float_to_pcm (pcm_to_float 32767) = 32767) :=
  ⟨⟨le_refl _, by decide, pcm_float_round_trip (-32768) (by decide) (by decide)⟩,
   ⟨by decide, le_refl _, pcm_float_round_trip 32767 (by decide) (by decide)⟩⟩

end VoiceCall
